import Mathlib

/-!
Verification of the `J1939ID` class of J1939-Utils (`src/messages/j1939id.py`).

The class stores a CAN identifier as a bit array (`bitarray`), 11 bits long
for Classical Base Frame Format (CBFF) identifiers and 29 bits long for
Extended (CEFF) identifiers, most-significant bit first.  We embed the state
as a natural number `canId` (the value of that bit array) together with the
`cbff` flag, and each bit-slice access of the Python code as division and
remainder by powers of two.  Python exceptions (`ValueError` raised by the
class, `OverflowError` raised by `bitarray.util.int2ba` when a value does not
fit the requested length) are embedded as `Except String` results; the `da`
getter, which returns `None` on CBFF identifiers instead of raising, gets a
dedicated three-way result type.
-/

deriving instance DecidableEq for Except

namespace J1939

/-- State of a `J1939ID` object: the `cbff` flag and the value of the
underlying bit array (width 11 when `cbff`, else 29, most-significant bit
first). -/
structure J1939ID where
  cbff : Bool
  canId : Nat
deriving DecidableEq

/-- Bit width of the stored identifier: 11 for CBFF, 29 for Extended. -/
def width (e : J1939ID) : Nat := if e.cbff then 11 else 29

/-- Priority field: bits `[0:3]` of the array, i.e. the top three bits. -/
def priorityBits (e : J1939ID) : Nat :=
  if e.cbff then e.canId / 2 ^ 8 else e.canId / 2 ^ 26

/-- Extended data page: bit `[3:4]` of the 29-bit array. -/
def edpBits (e : J1939ID) : Nat := e.canId / 2 ^ 25 % 2

/-- Data page: bit `[4:5]` of the 29-bit array. -/
def dpBits (e : J1939ID) : Nat := e.canId / 2 ^ 24 % 2

/-- PDU format: bits `[5:13]` of the 29-bit array. -/
def pfBits (e : J1939ID) : Nat := e.canId / 2 ^ 16 % 2 ^ 8

/-- PDU specific: bits `[13:21]` of the 29-bit array. -/
def psBits (e : J1939ID) : Nat := e.canId / 2 ^ 8 % 2 ^ 8

/-- Source address: bits `[21:29]` of the 29-bit array, or bits `[3:11]` of
the 11-bit array; in both cases the low byte. -/
def saBits (e : J1939ID) : Nat := e.canId % 2 ^ 8

/-- Getter `edp`: raises on CBFF. -/
def edpGet (e : J1939ID) : Except String Nat :=
  if e.cbff then .error "EDP only on CEFF packets" else .ok (edpBits e)

/-- Getter `dp`: raises on CBFF. -/
def dpGet (e : J1939ID) : Except String Nat :=
  if e.cbff then .error "DP only on CEFF packets" else .ok (dpBits e)

/-- Getter `pf`: raises on CBFF. -/
def pfGet (e : J1939ID) : Except String Nat :=
  if e.cbff then .error "PF only on CEFF packets" else .ok (pfBits e)

/-- Getter `ps`: raises on CBFF. -/
def psGet (e : J1939ID) : Except String Nat :=
  if e.cbff then .error "PS only on CEFF packets" else .ok (psBits e)

/-- Getter `type` (the PDU type): raises on CBFF; on Extended identifiers the
code tests `if self.pf and self.pf < 240`, so `pf == 0` falls through to the
`else` branch because `0` is falsy in Python. -/
def typeGet (e : J1939ID) : Except String Nat :=
  if e.cbff then .error "type only on CEFF packets"
  else if pfBits e ≠ 0 ∧ pfBits e < 240 then .ok 1 else .ok 2

/-- Result of the `da` getter, which can return a number, return `None`
(on CBFF identifiers), but never raises. -/
inductive DaResult where
  | val (n : Nat)
  | noneVal
deriving DecidableEq

/-- Getter `da`: returns `None` on CBFF (it does not raise); on Extended
identifiers it returns `ps` when the PDU type is 1 and the constant 255
otherwise.  `typeGet` cannot raise here since `e` is not CBFF, so the
catch-all match arm is unreachable for the error case. -/
def daGet (e : J1939ID) : DaResult :=
  if e.cbff then .noneVal
  else
    match typeGet e with
    | .ok 1 => .val (psBits e)
    | _ => .val 255

/-- Getter `pgn`: raises on CBFF; on Extended identifiers it assembles the
24-bit quantity `0·0·0·0·0·0·edp·dp·pf·(0x00 if type 1 else ps)`
(most-significant bit first). -/
def pgnGet (e : J1939ID) : Except String Nat :=
  if e.cbff then .error "pgn only on CEFF packet"
  else
    let lowByte : Nat :=
      match typeGet e with
      | .ok 1 => 0
      | _ => psBits e
    .ok (edpBits e * 2 ^ 17 + dpBits e * 2 ^ 16 + pfBits e * 2 ^ 8 + lowByte)

/-- Setter `priority`: writes bits `[0:3]`; `int2ba(value, length=3)`
overflows for `value ≥ 8`. -/
def prioritySet (e : J1939ID) (v : Nat) : Except String J1939ID :=
  if v ≥ 2 ^ 3 then .error "overflow"
  else if e.cbff then .ok ⟨true, v * 2 ^ 8 + e.canId % 2 ^ 8⟩
  else .ok ⟨false, v * 2 ^ 26 + e.canId % 2 ^ 26⟩

/-- Setter `ps`: raises on CBFF; writes bits `[13:21]` of the 29-bit array;
`int2ba(value, 8)` overflows for `value ≥ 256`. -/
def psSet (e : J1939ID) (v : Nat) : Except String J1939ID :=
  if e.cbff then .error "PS only on CEFF packets"
  else if v ≥ 2 ^ 8 then .error "overflow"
  else .ok ⟨false, e.canId / 2 ^ 16 * 2 ^ 16 + v * 2 ^ 8 + e.canId % 2 ^ 8⟩

/-- Setter `sa`: writes the low byte in both formats (bits `[21:29]` of the
29-bit array, bits `[3:11]` of the 11-bit array). -/
def saSet (e : J1939ID) (v : Nat) : Except String J1939ID :=
  if v ≥ 2 ^ 8 then .error "overflow"
  else .ok ⟨e.cbff, e.canId / 2 ^ 8 * 2 ^ 8 + v⟩

/-- Setter `da`: raises on CBFF; on Extended identifiers both PDU-type
branches write `ps` (the type-2 branch additionally prints a warning). -/
def daSet (e : J1939ID) (v : Nat) : Except String J1939ID :=
  if e.cbff then .error "DA only on CEFF" else psSet e v

/-- Setter `pgn`: `int2ba(value, 24)` overflows for `value ≥ 2 ^ 24` before
any write; otherwise, on Extended identifiers, bits 6, 7, `[8:16]` and
`[16:24]` of the 24-bit big-endian decomposition of `value` are written into
edp, dp, pf and ps, and only then the freshly read `pgn` is compared with
`value`, raising when they differ.  On CBFF identifiers nothing is written
and the validation read itself raises.  The result is the state the object is
left in (writes are not rolled back) together with the raised error, if
any.  `pgnWrite` is the write part on an Extended identifier: bits 6, 7,
`[8:16]`, `[16:24]` of the big-endian 24-bit decomposition of `v` replace
edp, dp, pf, ps, keeping priority and sa. -/
def pgnWrite (e : J1939ID) (v : Nat) : J1939ID :=
  ⟨false,
    e.canId / 2 ^ 26 * 2 ^ 26
      + v / 2 ^ 17 % 2 * 2 ^ 25 + v / 2 ^ 16 % 2 * 2 ^ 24
      + v / 2 ^ 8 % 2 ^ 8 * 2 ^ 16 + v % 2 ^ 8 * 2 ^ 8
      + e.canId % 2 ^ 8⟩

/-- Setter `pgn`, continued: run the writes (a no-op on CBFF identifiers),
then the validation read. -/
def pgnSet (e : J1939ID) (v : Nat) : J1939ID × Option String :=
  if v ≥ 2 ^ 24 then (e, some "overflow")
  else
    let e' : J1939ID := if e.cbff then e else pgnWrite e v
    match pgnGet e' with
    | .error m => (e', some m)
    | .ok p =>
      if p ≠ v then (e', some "the pgn requested is not in a valid range")
      else (e', none)

/-- Constructor path taken when `can_id` is empty: start from an all-zero bit
array of the format's width, then run the `priority`, `pgn` and `sa` setters,
and finally the `da` setter when the PDU type reads back as 1 (the `type`
read itself raises on CBFF, as does the validation read inside the `pgn`
setter). -/
def initFromParts (priority pgnV sa da : Nat) (cbff : Bool) :
    Except String J1939ID :=
  match prioritySet ⟨cbff, 0⟩ priority with
  | .error m => .error m
  | .ok e1 =>
    match pgnSet e1 pgnV with
    | (_, some m) => .error m
    | (e2, none) =>
      match saSet e2 sa with
      | .error m => .error m
      | .ok e3 =>
        match typeGet e3 with
        | .error m => .error m
        | .ok t =>
          if t = 1 then
            match daSet e3 da with
            | .error m => .error m
            | .ok e4 => .ok e4
          else .ok e3

/-- Value of one hexadecimal digit character, `None` when the character is
not a hexadecimal digit (decimal digits 48–57, lowercase 97–102, uppercase
65–70). -/
def hexDigitVal (c : Char) : Option Nat :=
  if 48 ≤ c.toNat ∧ c.toNat ≤ 57 then some (c.toNat - 48)
  else if 97 ≤ c.toNat ∧ c.toNat ≤ 102 then some (c.toNat - 87)
  else if 65 ≤ c.toNat ∧ c.toNat ≤ 70 then some (c.toNat - 55)
  else none

/-- Accumulating hexadecimal parse of a digit list, most-significant digit
first; `None` on the first non-digit. -/
def hexValAux : Nat → List Char → Option Nat
  | a, [] => some a
  | a, c :: cs =>
    match hexDigitVal c with
    | none => none
    | some d => hexValAux (16 * a + d) cs

/-- Embedding of Python `int(s, 16)` on plain digit strings: `None` (raise)
on the empty string or on a non-digit character. -/
def hexVal (s : List Char) : Option Nat :=
  if s.isEmpty then none else hexValAux 0 s

/-- Constructor path taken when a non-empty `can_id` string is given (with
the `cbff` argument left at its default `False`): parse as hexadecimal,
reject values above `0x1FFFFFFF`, and pick CBFF exactly when the string has
at most 4 characters and the value is at most `0x7FF`. -/
def fromHex (s : List Char) : Except String J1939ID :=
  match hexVal s with
  | none => .error "malformed hex"
  | some v =>
    if v > 0x1FFFFFFF then .error "data must be 29bits or less"
    else if s.length ≤ 4 ∧ v ≤ 0x7FF then .ok ⟨true, v⟩
    else .ok ⟨false, v⟩

/-- Setter `can_id`: strips a literal `0x` prefix, rejects strings longer
than 8 characters, and re-parses into the object's existing format;
`int2ba` overflows when the value does not fit that format's width. -/
def canIdSet (e : J1939ID) (s : List Char) : Except String J1939ID :=
  let s' := if s.take 2 = ['0', 'x'] then s.drop 2 else s
  if s'.length > 8 then .error "not valid canid, too long"
  else
    match hexVal s' with
    | none => .error "malformed hex"
    | some v =>
      if e.cbff then
        if v ≥ 2 ^ 11 then .error "overflow" else .ok ⟨true, v⟩
      else
        if v ≥ 2 ^ 29 then .error "overflow" else .ok ⟨false, v⟩

/-- Bits of `v` as a list of length `w`, most-significant bit first (the
contents of `int2ba(v, w)`). -/
def natToBits : Nat → Nat → List Bool
  | 0, _ => []
  | w + 1, v => decide (v / 2 ^ w % 2 = 1) :: natToBits w v

/-- Nibble values of a bit list taken four bits at a time, most-significant
bit first (the digit extraction performed by `ba2hex`); a trailing group of
fewer than four bits is dropped, which never happens on the byte-aligned
inputs the code builds. -/
def bitsToNibbles : List Bool → List Nat
  | b3 :: b2 :: b1 :: b0 :: rest =>
    (8 * b3.toNat + 4 * b2.toNat + 2 * b1.toNat + b0.toNat) :: bitsToNibbles rest
  | _ => []

/-- Uppercase hexadecimal digit character for a nibble value (the code
applies `.upper()` to the output of `ba2hex`). -/
def hexChar (n : Nat) : Char :=
  if n < 10 then Char.ofNat (48 + n) else Char.ofNat (55 + n)

/-- Padding performed by `hex`: `reverse`, `fill`, `reverse` prepends zero
bits until the length is a multiple of 8. -/
def fillFront (bs : List Bool) : List Bool :=
  List.replicate ((8 - bs.length % 8) % 8) false ++ bs

/-- Getter `hex` (also `can_id` and `str`): pad the bit array at the front
to a whole number of bytes, render nibbles as hexadecimal, uppercase. -/
def toHex (e : J1939ID) : List Char :=
  (bitsToNibbles (fillFront (natToBits (width e) e.canId))).map hexChar

/-- Modelled from the spec's words for the round-trip claim: the canonical
zero-left-padded uppercase rendering of `v` using exactly `n` hexadecimal
digits, most-significant digit first. -/
def specHexRender (v n : Nat) : List Char :=
  (List.range n).map fun i => hexChar (v / 16 ^ (n - 1 - i) % 16)

/-! Helper lemmas. -/

theorem typeGet_eq (e : J1939ID) (h : e.cbff = false) :
    typeGet e = .ok (if pfBits e ≠ 0 ∧ pfBits e < 240 then 1 else 2) := by
  simp only [typeGet, h, Bool.false_eq_true, if_false]
  split <;> rfl

theorem pgnGet_eq (e : J1939ID) (h : e.cbff = false) :
    pgnGet e = .ok (edpBits e * 2 ^ 17 + dpBits e * 2 ^ 16 + pfBits e * 2 ^ 8
      + (if pfBits e ≠ 0 ∧ pfBits e < 240 then 0 else psBits e)) := by
  simp only [pgnGet, h, Bool.false_eq_true, if_false, typeGet_eq e h]
  by_cases hc : pfBits e ≠ 0 ∧ pfBits e < 240 <;> simp [hc]

theorem pgnWrite_fields (e : J1939ID) (v : Nat) :
    edpBits (pgnWrite e v) = v / 2 ^ 17 % 2
      ∧ dpBits (pgnWrite e v) = v / 2 ^ 16 % 2
      ∧ pfBits (pgnWrite e v) = v / 2 ^ 8 % 2 ^ 8
      ∧ psBits (pgnWrite e v) = v % 2 ^ 8
      ∧ saBits (pgnWrite e v) = saBits e := by
  simp only [pgnWrite, edpBits, dpBits, pfBits, psBits, saBits]
  refine ⟨by omega, by omega, by omega, by omega, by omega⟩

theorem pgnSet_state (e : J1939ID) (v : Nat) (h : e.cbff = false)
    (hv : v < 2 ^ 24) : (pgnSet e v).1 = pgnWrite e v := by
  simp only [pgnSet, h, Bool.false_eq_true, if_false, if_neg (by omega : ¬v ≥ 2 ^ 24)]
  cases hg : pgnGet (pgnWrite e v) with
  | error m => rfl
  | ok p => by_cases hp : p ≠ v <;> simp [hp]

/-! Claim C1. -/

/-- Claim C1: the spec states that for every Extended identifier,
`pdu_type = 1` iff `pf < 240`, and in particular `pf == 0` yields type 1.
The code instead tests `if self.pf and self.pf < 240`, so a zero PF is
treated as falsy and yields type 2: at the Extended identifier
`0x0C000000` (priority 3, pf 0) the code returns PDU type 2 where the
claim demands 1.  The boundary cases `pf == 239 → 1` and `pf == 240 → 2`
do hold. -/
theorem c1_pdu_type_falsy_zero_eval :
    pfGet ⟨false, 0x0C000000⟩ = .ok 0
      ∧ typeGet ⟨false, 0x0C000000⟩ = .ok 2
      ∧ pfGet ⟨false, 0x0CEF0000⟩ = .ok 239
      ∧ typeGet ⟨false, 0x0CEF0000⟩ = .ok 1
      ∧ pfGet ⟨false, 0x0CF00000⟩ = .ok 240
      ∧ typeGet ⟨false, 0x0CF00000⟩ = .ok 2 := by
  decide

/-! Claim C2. -/

/-- Claim C2: for every Extended identifier the `pgn` getter returns the
24-bit value whose bits 0–5 (from the most significant end) are zero, bit 6
is edp, bit 7 is dp, bits 8–15 are pf, and bits 16–23 are ps when the PDU
type reads 2 and zero when it reads 1. -/
theorem c2_pgn_getter_decomposition (e : J1939ID) (h : e.cbff = false) :
    ∃ p, pgnGet e = .ok p ∧ p < 2 ^ 18
      ∧ p / 2 ^ 17 % 2 = edpBits e
      ∧ p / 2 ^ 16 % 2 = dpBits e
      ∧ p / 2 ^ 8 % 2 ^ 8 = pfBits e
      ∧ p % 2 ^ 8 = (if typeGet e = .ok 1 then 0 else psBits e) := by
  have ha : edpBits e < 2 := Nat.mod_lt _ (by norm_num)
  have hb : dpBits e < 2 := Nat.mod_lt _ (by norm_num)
  have hf : pfBits e < 2 ^ 8 := Nat.mod_lt _ (by norm_num)
  have hs : psBits e < 2 ^ 8 := Nat.mod_lt _ (by norm_num)
  rw [pgnGet_eq e h, typeGet_eq e h]
  by_cases hc : pfBits e ≠ 0 ∧ pfBits e < 240
  · rw [if_pos hc, if_pos (by rw [if_pos hc])]
    exact ⟨_, rfl, by omega, by omega, by omega, by omega, by omega⟩
  · rw [if_neg hc, if_neg (by rw [if_neg hc]; decide)]
    exact ⟨_, rfl, by omega, by omega, by omega, by omega, by omega⟩

/-- Witness for C2 at the identifier built from hex `18EEFF00`: the getter
decomposition holds there and the pgn value is 60928, the standard J1939
NAME PGN. -/
theorem c2_pgn_getter_decomposition_witness :
    fromHex ['1', '8', 'E', 'E', 'F', 'F', '0', '0'] = .ok ⟨false, 0x18EEFF00⟩
      ∧ pgnGet ⟨false, 0x18EEFF00⟩ = .ok 60928
      ∧ ∃ p, pgnGet (⟨false, 0x18EEFF00⟩ : J1939ID) = .ok p ∧ p < 2 ^ 18
        ∧ p / 2 ^ 17 % 2 = edpBits ⟨false, 0x18EEFF00⟩
        ∧ p / 2 ^ 16 % 2 = dpBits ⟨false, 0x18EEFF00⟩
        ∧ p / 2 ^ 8 % 2 ^ 8 = pfBits ⟨false, 0x18EEFF00⟩
        ∧ p % 2 ^ 8 = (if typeGet ⟨false, 0x18EEFF00⟩ = .ok 1 then 0
            else psBits ⟨false, 0x18EEFF00⟩) :=
  ⟨by decide, by decide, c2_pgn_getter_decomposition ⟨false, 0x18EEFF00⟩ rfl⟩

/-! Claim C3. -/

/-- Counterexample to claim C3: the claim states that `set_pgn(v)` fails
exactly when `v`'s pf field is below 240 and `v`'s low byte is non-zero.
At `v = 255` the pf field is 0 (below 240) and the low byte is 255
(non-zero), yet on the Extended identifier `0x0C000000` the setter succeeds
and the pgn reads back as 255, because the falsy-zero `pdu_type` puts
`pf == 0` in type 2, whose getter keeps the low byte. -/
theorem c3_claim_counterexample :
    255 / 2 ^ 8 % 2 ^ 8 < 240 ∧ 255 % 2 ^ 8 ≠ 0
      ∧ (pgnSet ⟨false, 0x0C000000⟩ 255).2 = none
      ∧ pgnGet (pgnSet ⟨false, 0x0C000000⟩ 255).1 = .ok 255 := by
  decide

/-- Claim C3 amended: for an Extended identifier and `v < 2 ^ 24`,
`set_pgn(v)` fails exactly when the re-read pgn differs from `v`, that is,
exactly when `v`'s bits 18–23 are non-zero or `v`'s pf field lies in
`[1, 239]` while the low byte is non-zero; whenever it succeeds the pgn
reads back as `v`.  In particular pf in `[240, 255]` (with bits 18–23 zero)
round-trips for any low byte, pf in `[1, 239]` round-trips exactly for a
zero low byte, and — diverging from the claim — pf `= 0` round-trips for
every low byte because the falsy-zero `pdu_type` treats it as type 2. -/
theorem c3_pgn_setter_amended (e : J1939ID) (v : Nat) (h : e.cbff = false)
    (hv : v < 2 ^ 24) :
    ((pgnSet e v).2 ≠ none ↔
        2 ^ 18 ≤ v ∨ (1 ≤ v / 2 ^ 8 % 2 ^ 8 ∧ v / 2 ^ 8 % 2 ^ 8 < 240
          ∧ v % 2 ^ 8 ≠ 0))
      ∧ ((pgnSet e v).2 = none → pgnGet (pgnSet e v).1 = .ok v) := by
  obtain ⟨he, hd, hf, hs, hsa⟩ := pgnWrite_fields e v
  have hread : pgnGet (pgnWrite e v) = .ok (v / 2 ^ 17 % 2 * 2 ^ 17
      + v / 2 ^ 16 % 2 * 2 ^ 16 + v / 2 ^ 8 % 2 ^ 8 * 2 ^ 8
      + (if v / 2 ^ 8 % 2 ^ 8 ≠ 0 ∧ v / 2 ^ 8 % 2 ^ 8 < 240 then 0
          else v % 2 ^ 8)) := by
    rw [pgnGet_eq (pgnWrite e v) rfl, he, hd, hf, hs]
  have hpair : pgnSet e v = (pgnWrite e v,
      if (v / 2 ^ 17 % 2 * 2 ^ 17 + v / 2 ^ 16 % 2 * 2 ^ 16
          + v / 2 ^ 8 % 2 ^ 8 * 2 ^ 8
          + (if v / 2 ^ 8 % 2 ^ 8 ≠ 0 ∧ v / 2 ^ 8 % 2 ^ 8 < 240 then 0
              else v % 2 ^ 8)) ≠ v
        then some "the pgn requested is not in a valid range" else none) := by
    simp only [pgnSet, if_neg (show ¬v ≥ 2 ^ 24 by omega), h,
      Bool.false_eq_true, if_false, hread]
    exact (apply_ite (fun o : Option String => (pgnWrite e v, o)) _ _ _).symm
  rw [hpair]
  dsimp only
  constructor
  · have hiff : ∀ (C : Prop) [Decidable C],
        ((if C then some "the pgn requested is not in a valid range"
          else (none : Option String)) ≠ none) ↔ C := by
      intro C _
      by_cases hC : C <;> simp [hC]
    rw [hiff]
    by_cases hc : v / 2 ^ 8 % 2 ^ 8 ≠ 0 ∧ v / 2 ^ 8 % 2 ^ 8 < 240
    · rw [if_pos hc]
      omega
    · rw [if_neg hc]
      omega
  · intro hnone
    rw [hread]
    by_cases hC : (v / 2 ^ 17 % 2 * 2 ^ 17 + v / 2 ^ 16 % 2 * 2 ^ 16
        + v / 2 ^ 8 % 2 ^ 8 * 2 ^ 8
        + (if v / 2 ^ 8 % 2 ^ 8 ≠ 0 ∧ v / 2 ^ 8 % 2 ^ 8 < 240 then 0
            else v % 2 ^ 8)) ≠ v
    · rw [if_pos hC] at hnone
      cases hnone
    · rw [not_not] at hC
      rw [hC]

/-- Witness for the amended C3 at the Extended identifier `0x0C000000`
with `v = 0xF034` (pf 240, low byte `0x34`): the setter succeeds and the
pgn round-trips. -/
theorem c3_pgn_setter_amended_witness :
    ¬(2 ^ 18 ≤ 0xF034 ∨ (1 ≤ 0xF034 / 2 ^ 8 % 2 ^ 8
        ∧ 0xF034 / 2 ^ 8 % 2 ^ 8 < 240 ∧ 0xF034 % 2 ^ 8 ≠ 0))
      ∧ (pgnSet ⟨false, 0x0C000000⟩ 0xF034).2 = none
      ∧ pgnGet (pgnSet ⟨false, 0x0C000000⟩ 0xF034).1 = .ok 0xF034 := by
  have h := c3_pgn_setter_amended ⟨false, 0x0C000000⟩ 0xF034 rfl (by norm_num)
  refine ⟨by decide, ?_, ?_⟩
  · by_contra hne
    exact (by decide : ¬(2 ^ 18 ≤ 0xF034 ∨ (1 ≤ 0xF034 / 2 ^ 8 % 2 ^ 8
        ∧ 0xF034 / 2 ^ 8 % 2 ^ 8 < 240 ∧ 0xF034 % 2 ^ 8 ≠ 0))) (h.1.mp hne)
  · apply h.2
    by_contra hne
    exact (by decide : ¬(2 ^ 18 ≤ 0xF034 ∨ (1 ≤ 0xF034 / 2 ^ 8 % 2 ^ 8
        ∧ 0xF034 / 2 ^ 8 % 2 ^ 8 < 240 ∧ 0xF034 % 2 ^ 8 ≠ 0))) (h.1.mp hne)

/-! Claim C4. -/

/-- Claim C4 fails on the code: constructing a Standard (CBFF) identifier
from explicit components always raises, for every priority in `[0, 7]` and
sa in `[0, 255]`.  The constructor runs the `pgn` setter, whose validation
step re-reads `pgn` unconditionally, and that getter raises on CBFF
identifiers; so `new_standard` never returns an object, where the claim
(and the class documentation, which says CBFF messages are handled) expects
success. -/
theorem c4_standard_ctor_raises (p s : Nat) (hp : p < 8) (_hs : s < 256) :
    initFromParts p 0 s 0 true = .error "pgn only on CEFF packet" := by
  have h1 : prioritySet ⟨true, 0⟩ p = .ok ⟨true, p * 2 ^ 8⟩ := by
    simp only [prioritySet, if_neg (show ¬p ≥ 2 ^ 3 by omega)]
    norm_num
  have h2 : pgnSet ⟨true, p * 2 ^ 8⟩ 0
      = (⟨true, p * 2 ^ 8⟩, some "pgn only on CEFF packet") := rfl
  simp only [initFromParts, h1, h2]

/-- Witness for C4 at the default arguments `priority = 3`, `sa = 0`. -/
theorem c4_standard_ctor_raises_witness :
    initFromParts 3 0 0 0 true = .error "pgn only on CEFF packet" :=
  c4_standard_ctor_raises 3 0 (by norm_num) (by norm_num)

/-! Claim C5. -/

/-- Counterexample to claim C5: the claim states that on a Standard
identifier every one of the CEFF-only accessors fails with a `WrongFormat`
error and none returns a null value.  The `da` getter on the Standard
identifier built from hex `7FF` returns `None` instead of raising. -/
theorem c5_da_none_counterexample :
    fromHex ['7', 'F', 'F'] = .ok ⟨true, 0x7FF⟩
      ∧ daGet ⟨true, 0x7FF⟩ = .noneVal := by
  decide

/-- Claim C5 amended: on every Standard identifier the accessors `edp`,
`dp`, `pf`, `ps`, `pgn` and `pdu_type` each fail with the format error, but
`da` returns the null value `None` instead of raising. -/
theorem c5_standard_getters_amended (e : J1939ID) (h : e.cbff = true) :
    edpGet e = .error "EDP only on CEFF packets"
      ∧ dpGet e = .error "DP only on CEFF packets"
      ∧ pfGet e = .error "PF only on CEFF packets"
      ∧ psGet e = .error "PS only on CEFF packets"
      ∧ pgnGet e = .error "pgn only on CEFF packet"
      ∧ typeGet e = .error "type only on CEFF packets"
      ∧ daGet e = .noneVal := by
  refine ⟨?_, ?_, ?_, ?_, ?_, ?_, ?_⟩ <;>
    simp [edpGet, dpGet, pfGet, psGet, pgnGet, typeGet, daGet, h]

/-- Witness for the amended C5 at the Standard identifier `0x7FF`. -/
theorem c5_standard_getters_amended_witness :
    edpGet ⟨true, 0x7FF⟩ = .error "EDP only on CEFF packets"
      ∧ dpGet ⟨true, 0x7FF⟩ = .error "DP only on CEFF packets"
      ∧ pfGet ⟨true, 0x7FF⟩ = .error "PF only on CEFF packets"
      ∧ psGet ⟨true, 0x7FF⟩ = .error "PS only on CEFF packets"
      ∧ pgnGet ⟨true, 0x7FF⟩ = .error "pgn only on CEFF packet"
      ∧ typeGet ⟨true, 0x7FF⟩ = .error "type only on CEFF packets"
      ∧ daGet ⟨true, 0x7FF⟩ = .noneVal :=
  c5_standard_getters_amended ⟨true, 0x7FF⟩ rfl

/-! Claim C6. -/

/-- Claim C6: for every hex string whose parsed value is at most
`0x1FFFFFFF`, construction succeeds and yields a Standard (CBFF)
identifier exactly when the string has at most 4 digits and its value is
at most `0x7FF`; otherwise an Extended identifier. -/
theorem c6_format_selection (s : List Char) (v : Nat) (hs : hexVal s = some v)
    (hv : v ≤ 0x1FFFFFFF) :
    ∃ e, fromHex s = .ok e ∧ (e.cbff = true ↔ s.length ≤ 4 ∧ v ≤ 0x7FF) := by
  simp only [fromHex, hs]
  rw [if_neg (show ¬v > 0x1FFFFFFF by omega)]
  by_cases hc : s.length ≤ 4 ∧ v ≤ 0x7FF
  · rw [if_pos hc]
    exact ⟨_, rfl, by simpa using hc⟩
  · rw [if_neg hc]
    exact ⟨_, rfl, by simpa using hc⟩

/-- Witness for C6: `7FF` (3 digits) parses as Standard while `000007FF`
(8 digits, same value) parses as Extended. -/
theorem c6_format_selection_witness :
    fromHex ['7', 'F', 'F'] = .ok ⟨true, 0x7FF⟩
      ∧ fromHex ['0', '0', '0', '0', '0', '7', 'F', 'F'] = .ok ⟨false, 0x7FF⟩
      ∧ ∃ e, fromHex ['7', 'F', 'F'] = .ok e
        ∧ (e.cbff = true ↔ (['7', 'F', 'F'] : List Char).length ≤ 4 ∧ 0x7FF ≤ 0x7FF) :=
  ⟨by decide, by decide,
    c6_format_selection ['7', 'F', 'F'] 0x7FF (by decide) (by norm_num)⟩

/-! Claim C8. -/

/-- Claim C8 fails on the code at a zero PF: the claim says `da` returns
`ps` whenever `pf < 240` (PDU type 1) and 255 on type 2.  At the Extended
identifier `0x0C003400` (pf 0, ps `0x34`) we have `pf = 0 < 240`, yet the
code returns `da = 255`, because the falsy-zero `pdu_type` classifies
`pf == 0` as type 2.  The non-zero cases behave as claimed: pf `0xEE`
(type 1) gives `da = ps = 0x34`; pf `0xF0` (type 2) gives `da = 255`. -/
theorem c8_da_falsy_zero_eval :
    pfGet ⟨false, 0x0C003400⟩ = .ok 0
      ∧ psGet ⟨false, 0x0C003400⟩ = .ok 0x34
      ∧ daGet ⟨false, 0x0C003400⟩ = .val 255
      ∧ daGet ⟨false, 0x0CEE3400⟩ = .val 0x34
      ∧ daGet ⟨false, 0x0CF03400⟩ = .val 255 := by
  decide

/-! Claim C9. -/

/-- Claim C9: when `set_pgn(v)` fails on an Extended identifier (for a
24-bit `v`), the object is left holding the edp, dp, pf and ps fields
decomposed from the rejected value: the write happens before the
validation read and is not rolled back. -/
theorem c9_partial_write_on_failure (e : J1939ID) (v : Nat)
    (h : e.cbff = false) (hv : v < 2 ^ 24)
    (_hfail : (pgnSet e v).2 ≠ none) :
    edpBits (pgnSet e v).1 = v / 2 ^ 17 % 2
      ∧ dpBits (pgnSet e v).1 = v / 2 ^ 16 % 2
      ∧ pfBits (pgnSet e v).1 = v / 2 ^ 8 % 2 ^ 8
      ∧ psBits (pgnSet e v).1 = v % 2 ^ 8 := by
  rw [pgnSet_state e v h hv]
  obtain ⟨he, hd, hf, hs, _⟩ := pgnWrite_fields e v
  exact ⟨he, hd, hf, hs⟩

/-- Witness for C9 at the Extended identifier `0x0C000000` and the
rejected value `0x01FF` (pf 1, low byte `0xFF`): the setter fails and the
fields afterwards hold the decomposition of `0x01FF`. -/
theorem c9_partial_write_on_failure_witness :
    (pgnSet ⟨false, 0x0C000000⟩ 0x01FF).2 ≠ none
      ∧ (edpBits (pgnSet ⟨false, 0x0C000000⟩ 0x01FF).1 = 0x01FF / 2 ^ 17 % 2
        ∧ dpBits (pgnSet ⟨false, 0x0C000000⟩ 0x01FF).1 = 0x01FF / 2 ^ 16 % 2
        ∧ pfBits (pgnSet ⟨false, 0x0C000000⟩ 0x01FF).1 = 0x01FF / 2 ^ 8 % 2 ^ 8
        ∧ psBits (pgnSet ⟨false, 0x0C000000⟩ 0x01FF).1 = 0x01FF % 2 ^ 8) :=
  ⟨by decide, c9_partial_write_on_failure ⟨false, 0x0C000000⟩ 0x01FF rfl
    (by norm_num) (by decide)⟩

/-! Claim C10. -/

/-- Counterexample to claim C10: the claim states that every input string
with more than 8 hex digits is rejected by the constructor.  The 9-digit
string `000000001` has value 1, passes the constructor's only check (value
at most `0x1FFFFFFF`) and yields an Extended identifier. -/
theorem c10_nine_digit_ctor_counterexample :
    (['0', '0', '0', '0', '0', '0', '0', '0', '1'] : List Char).length > 8
      ∧ fromHex ['0', '0', '0', '0', '0', '0', '0', '0', '1'] = .ok ⟨false, 1⟩ := by
  decide

/-- Claim C10 amended: the 8-digit limit is enforced only by the `can_id`
setter, which rejects every hex-digit string longer than 8 characters; the
constructor instead rejects exactly the strings whose parsed value exceeds
`0x1FFFFFFF` and accepts longer strings of small value. -/
theorem c10_length_check_amended (e : J1939ID) (s : List Char)
    (hd : ∀ c ∈ s, (hexDigitVal c).isSome) :
    (s.length > 8 → canIdSet e s = .error "not valid canid, too long")
      ∧ (∀ v, hexVal s = some v → 0x1FFFFFFF < v →
          fromHex s = .error "data must be 29bits or less")
      ∧ (∀ v, hexVal s = some v → v ≤ 0x1FFFFFFF → ∃ i, fromHex s = .ok i) := by
  refine ⟨?_, ?_, ?_⟩
  · intro hlen
    have hx : ¬s.take 2 = ['0', 'x'] := by
      intro heq
      have hmem : 'x' ∈ s := List.take_subset 2 s (by rw [heq]; simp)
      have h2 := hd 'x' hmem
      rw [show hexDigitVal 'x' = none from by decide] at h2
      exact absurd h2 (by decide)
    simp only [canIdSet, if_neg hx, if_pos hlen]
  · intro v hv hbig
    simp only [fromHex, hv, if_pos (show v > 0x1FFFFFFF by omega)]
  · intro v hv hsmall
    simp only [fromHex, hv]
    rw [if_neg (show ¬v > 0x1FFFFFFF by omega)]
    by_cases hc : s.length ≤ 4 ∧ v ≤ 0x7FF
    · rw [if_pos hc]
      exact ⟨_, rfl⟩
    · rw [if_neg hc]
      exact ⟨_, rfl⟩

/-- Witness for the amended C10 at the 9-digit string `000000001`: the
`can_id` setter rejects it while the constructor accepts it. -/
theorem c10_length_check_amended_witness :
    canIdSet ⟨false, 0⟩ ['0', '0', '0', '0', '0', '0', '0', '0', '1']
        = .error "not valid canid, too long"
      ∧ ∃ i, fromHex ['0', '0', '0', '0', '0', '0', '0', '0', '1'] = .ok i :=
  ⟨(c10_length_check_amended ⟨false, 0⟩ _ (by decide)).1 (by decide),
    (c10_length_check_amended ⟨false, 0⟩ _ (by decide)).2.2 1 (by decide) (by norm_num)⟩

/-! Claim C7: rendering lemmas. -/

theorem natToBits_length (w v : Nat) : (natToBits w v).length = w := by
  induction w with
  | zero => rfl
  | succ w ih => simp [natToBits, ih]

theorem decide_mod_two_toNat (x : Nat) : (decide (x % 2 = 1)).toNat = x % 2 := by
  rcases Nat.mod_two_eq_zero_or_one x with h | h <;> simp [h]

theorem bitsToNibbles_natToBits (n v : Nat) :
    bitsToNibbles (natToBits (4 * n) v)
      = (List.range n).map fun i => v / 16 ^ (n - 1 - i) % 16 := by
  induction n with
  | zero => rfl
  | succ n ih =>
    have h4 : 4 * (n + 1) = 4 * n + 1 + 1 + 1 + 1 := by ring
    rw [h4]
    simp only [natToBits, bitsToNibbles, decide_mod_two_toNat]
    rw [List.range_succ_eq_map, List.map_cons, List.map_map]
    have e1 : v / 2 ^ (4 * n + 1) = v / 2 ^ (4 * n) / 2 := by
      rw [Nat.div_div_eq_div_mul]
      congr 1
    have e2 : v / 2 ^ (4 * n + 1 + 1) = v / 2 ^ (4 * n) / 4 := by
      rw [Nat.div_div_eq_div_mul]
      congr 1
      ring
    have e3 : v / 2 ^ (4 * n + 1 + 1 + 1) = v / 2 ^ (4 * n) / 8 := by
      rw [Nat.div_div_eq_div_mul]
      congr 1
      ring
    have e16 : (16 : Nat) ^ (n + 1 - 1 - 0) = 2 ^ (4 * n) := by
      rw [show n + 1 - 1 - 0 = n from rfl, show (16 : Nat) = 2 ^ 4 from rfl, ← pow_mul,
        Nat.mul_comm]
    congr 1
    · rw [e16, e1, e2, e3]
      omega
    · rw [ih]
      have hfun : ((fun i => v / 16 ^ (n + 1 - 1 - i) % 16) ∘ Nat.succ)
          = fun i => v / 16 ^ (n - 1 - i) % 16 := by
        funext i
        simp only [Function.comp_apply, Nat.succ_eq_add_one]
        rw [show n + 1 - 1 - (i + 1) = n - 1 - i from by omega]
      rw [hfun]

theorem natToBits_add_zeros (k w v : Nat) (h : v < 2 ^ w) :
    natToBits (w + k) v = List.replicate k false ++ natToBits w v := by
  induction k with
  | zero => simp
  | succ k ih =>
    have hz : decide (v / 2 ^ (w + k) % 2 = 1) = false := by
      have hd : v / 2 ^ (w + k) = 0 :=
        Nat.div_eq_of_lt (lt_of_lt_of_le h (Nat.pow_le_pow_right (by norm_num) (by omega)))
      simp [hd]
    calc natToBits (w + (k + 1)) v
        = decide (v / 2 ^ (w + k) % 2 = 1) :: natToBits (w + k) v := by
          rw [show w + (k + 1) = (w + k) + 1 from by omega]
          rfl
      _ = false :: (List.replicate k false ++ natToBits w v) := by rw [hz, ih]
      _ = List.replicate (k + 1) false ++ natToBits w v := by
          rw [List.replicate_succ]
          rfl

theorem toHex_eq_specHexRender (e : J1939ID) (h : e.canId < 2 ^ width e) :
    toHex e = specHexRender e.canId (if e.cbff then 4 else 8) := by
  cases hcb : e.cbff
  · have hw : width e = 29 := by simp [width, hcb]
    rw [hw] at h
    have hfill : fillFront (natToBits 29 e.canId) = natToBits 32 e.canId := by
      simp only [fillFront, natToBits_length]
      exact (natToBits_add_zeros 3 29 e.canId h).symm
    have hnib : bitsToNibbles (natToBits 32 e.canId)
        = (List.range 8).map fun i => e.canId / 16 ^ (8 - 1 - i) % 16 :=
      bitsToNibbles_natToBits 8 e.canId
    simp only [toHex, width, hcb, Bool.false_eq_true, if_false, hfill, hnib,
      specHexRender, List.map_map]
    rfl
  · have hw : width e = 11 := by simp [width, hcb]
    rw [hw] at h
    have hfill : fillFront (natToBits 11 e.canId) = natToBits 16 e.canId := by
      simp only [fillFront, natToBits_length]
      exact (natToBits_add_zeros 5 11 e.canId h).symm
    have hnib : bitsToNibbles (natToBits 16 e.canId)
        = (List.range 4).map fun i => e.canId / 16 ^ (4 - 1 - i) % 16 :=
      bitsToNibbles_natToBits 4 e.canId
    simp only [toHex, width, hcb, if_true, hfill, hnib, specHexRender, List.map_map]
    rfl

/-- Claim C7: for every valid hex string with at most 8 digits and value at
most `0x1FFFFFFF`, construction followed by rendering produces the
zero-left-padded uppercase byte-aligned form of the parsed value: 4 hex
digits when the result is Standard, 8 when it is Extended. -/
theorem c7_hex_round_trip (s : List Char) (v : Nat) (hs : hexVal s = some v)
    (_hlen : s.length ≤ 8) (hv : v ≤ 0x1FFFFFFF) :
    ∃ e, fromHex s = .ok e ∧ e.canId = v
      ∧ toHex e = specHexRender v (if e.cbff then 4 else 8) := by
  simp only [fromHex, hs]
  rw [if_neg (show ¬v > 0x1FFFFFFF by omega)]
  by_cases hc : s.length ≤ 4 ∧ v ≤ 0x7FF
  · rw [if_pos hc]
    refine ⟨⟨true, v⟩, rfl, rfl, ?_⟩
    exact toHex_eq_specHexRender ⟨true, v⟩ (by simp only [width]; norm_num; omega)
  · rw [if_neg hc]
    refine ⟨⟨false, v⟩, rfl, rfl, ?_⟩
    exact toHex_eq_specHexRender ⟨false, v⟩ (by simp only [width]; norm_num; omega)

/-- Witness for C7 at the 8-digit string `18EEFF00`, whose canonical
rendering is the string itself. -/
theorem c7_hex_round_trip_witness :
    (∃ e, fromHex ['1', '8', 'E', 'E', 'F', 'F', '0', '0'] = .ok e
        ∧ e.canId = 0x18EEFF00
        ∧ toHex e = specHexRender 0x18EEFF00 (if e.cbff then 4 else 8))
      ∧ specHexRender 0x18EEFF00 8 = ['1', '8', 'E', 'E', 'F', 'F', '0', '0'] :=
  ⟨c7_hex_round_trip _ 0x18EEFF00 (by decide) (by decide) (by norm_num), by decide⟩

end J1939
